import Mathlib

/-!
# Verification of the picking-list extraction core

Shallow embedding of `src/generate_picking_list.py`: the size normalizer
(`normalize_size_text`), the size-rank sort helper (`sort_df_with_custom_size`),
the store-block reshaper and the three aggregations of `process_single_csv`,
together with the per-file control flow of `process_single_csv` / `main`.

Modelling conventions:
* A raw CSV cell (after the reader's NA-detection) is `Option String`
  (`none` = missing/NA cell).
* `pandas.read_csv` column typing is modelled by `convertCol`: a column whose
  non-missing cells all parse as numbers becomes a numeric column, otherwise a
  string column.  A typed cell is `Option Value`.
* Python numbers are modelled as rationals (`ℚ`); the inputs exercised by the
  claims are integer-valued, where rational and floating-point arithmetic
  agree.
* `unicodedata.normalize("NFKC", ·)` is modelled on the character fragment the
  program exercises: full-width ASCII variants U+FF01–U+FF5E fold to ASCII and
  the ideographic space U+3000 folds to an ASCII space; other characters are
  kept.
* Sorting: `DataFrame.sort_values` with several `by` columns uses a stable
  lexicographic sort with missing keys placed last, and raises `TypeError`
  exactly when some key column mixes strings and numbers (the column's unique
  values are ordered during factorization).  `sortDF` models this: it reports
  an error on a mixed key column and otherwise performs the stable sort.
-/

set_option maxRecDepth 10000
set_option synthInstance.maxSize 512

namespace Picking

instance {ε α : Type} [DecidableEq ε] [DecidableEq α] : DecidableEq (Except ε α) :=
  fun a b =>
    match a, b with
    | Except.error e, Except.error f =>
      if h : e = f then Decidable.isTrue (h ▸ rfl)
      else Decidable.isFalse (fun hh => h (Except.error.inj hh))
    | Except.error _, Except.ok _ => Decidable.isFalse (fun hh => Except.noConfusion hh)
    | Except.ok _, Except.error _ => Decidable.isFalse (fun hh => Except.noConfusion hh)
    | Except.ok x, Except.ok y =>
      if h : x = y then Decidable.isTrue (h ▸ rfl)
      else Decidable.isFalse (fun hh => h (Except.ok.inj hh))

/-- A typed dataframe cell value: a string or a number. -/
inductive Value where
  | vstr (s : String)
  | vnum (q : ℚ)
deriving DecidableEq, Repr

open Value

/-- Python `str()` of a cell value (numbers are printed as rationals; the exact
numeral rendering is irrelevant to the verified properties). -/
def pyStr : Value → String
  | vstr s => s
  | vnum q => toString q

/-! ## Numeric parsing (`pd.to_numeric` / `read_csv` numeric conversion) -/

/-- Digits of a decimal string, if all characters are digits. -/
def parseDigits : List Char → Option (List Nat)
  | [] => some []
  | c :: cs =>
    if c.isDigit then (parseDigits cs).map (fun ds => (c.toNat - '0'.toNat) :: ds)
    else none

/-- Natural number denoted by a digit list (most significant first). -/
def digitsVal (ds : List Nat) : Nat := ds.foldl (fun a d => 10 * a + d) 0

/-- Whitespace as recognized by Python's `str.strip` / the `\s` regex class,
restricted to the characters occurring in this domain. -/
def isWs (c : Char) : Bool :=
  c = ' ' || c = '\t' || c = '\n' || c = '\r' ||
  c = Char.ofNat 0x0b || c = Char.ofNat 0x0c || c = Char.ofNat 0x3000

/-- Trim whitespace from both ends of a character list. -/
def trimChars (l : List Char) : List Char :=
  ((l.dropWhile isWs).reverse.dropWhile isWs).reverse

/-- Parse a decimal literal with optional sign and fractional part, as accepted
by `pd.to_numeric` (scientific notation is not exercised by the claims).  The
value is assembled with `mkRat` so that it evaluates by kernel reduction. -/
def parseNum (s : String) : Option ℚ :=
  let cs := trimChars s.data
  let (sgn, body) :=
    match cs with
    | '-' :: rest => ((-1 : Int), rest)
    | '+' :: rest => ((1 : Int), rest)
    | _ => ((1 : Int), cs)
  match body.splitOn '.' with
  | [ip] =>
    match parseDigits ip with
    | some ds => if ds = [] then none else some (mkRat (sgn * digitsVal ds) 1)
    | none => none
  | [ip, fp] =>
    match parseDigits ip, parseDigits fp with
    | some di, some df =>
      if di = [] ∧ df = [] then none
      else
        some (mkRat (sgn * (digitsVal di * 10 ^ df.length + digitsVal df)) (10 ^ df.length))
    | _, _ => none
  | _ => none

/-! ### Kernel-computable rational comparison and summation

`Rat.add` and `Rat.blt` are `@[extern]` and do not reduce inside `decide`, so
the model routes the rational operations it needs through `mkRat` and integer
arithmetic; the lemmas `qposB_iff` and `qAdd_eq_add` identify them with the
standard order and addition on `ℚ`. -/

/-- `0 < q`, computably. -/
def qposB (q : ℚ) : Bool := decide (0 < q.num)

/-- Rational addition through `mkRat`. -/
def qAdd (a b : ℚ) : ℚ := mkRat (a.num * b.den + b.num * a.den) (a.den * b.den)

/-- Sum of a list of rationals, computably. -/
def qSum (l : List ℚ) : ℚ := l.foldr qAdd 0

/-! ## Size normalization (`normalize_size_text`) -/

/-- The NFKC fragment used by the program: full-width ASCII variants fold to
ASCII, the ideographic space folds to a space. -/
def nfkcChar (c : Char) : Char :=
  if c.toNat = 0x3000 then ' '
  else if 0xFF01 ≤ c.toNat ∧ c.toNat ≤ 0xFF5E then Char.ofNat (c.toNat - 0xFEE0)
  else c

/-- If `cs` starts with a "size" token (`サイズ`, or `size` case-insensitively),
return the remainder. -/
def tryToken (cs : List Char) : Option (List Char) :=
  match cs with
  | 'サ' :: 'イ' :: 'ズ' :: rest => some rest
  | a :: b :: c :: d :: rest =>
    if a.toLower = 's' ∧ b.toLower = 'i' ∧ c.toLower = 'z' ∧ d.toLower = 'e'
    then some rest else none
  | _ => none

/-- One pass of `re.sub(r"[\s　]*(サイズ|size|Size)[\s　]*", "", s, flags=IGNORECASE)`:
remove every occurrence of the size token together with surrounding
whitespace.  Each recursive step strictly shortens the list, so a fuel of the
input length always suffices; the fuel only discharges termination. -/
def stripSizeFuel : Nat → List Char → List Char
  | 0, l => l
  | _ + 1, [] => []
  | fuel + 1, c :: rest =>
    match tryToken ((c :: rest).dropWhile isWs) with
    | some rest2 => stripSizeFuel fuel (rest2.dropWhile isWs)
    | none => c :: stripSizeFuel fuel rest

/-- Remove every size-token occurrence (with surrounding whitespace). -/
def stripSize (l : List Char) : List Char := stripSizeFuel l.length l

/-- `normalize_size_text` on a Python string: NFKC, strip size tokens, trim. -/
def normalizeStr (s : String) : String :=
  String.mk (trimChars (stripSize (s.data.map nfkcChar)))

/-- `normalize_size_text` on a dataframe cell (`pd.isna(text)` gives `""`). -/
def normalizeCell : Option Value → String
  | none => ""
  | some v => normalizeStr (pyStr v)

/-! ## Size rank (`SIZE_ORDER` / `rank_map` / `.map(...).fillna(999)`) -/

/-- The fixed size priority list `SIZE_ORDER`. -/
def SIZE_ORDER : List String :=
  ["XS", "SS", "S", "M", "L", "LL", "XL", "3L", "4L", "5L", "FREE", "F", "Free", "OneSize"]

/-- Position lookup in an enumerated list, mirroring
`rank_map = {size: i for i, size in enumerate(SIZE_ORDER)}`. -/
def lookupRank : List String → Nat → String → Option Nat
  | [], _, _ => none
  | k :: ks, i, s => if s = k then some i else lookupRank ks (i + 1) s

/-- `temp_df["_normalized_size"].map(rank_map).fillna(999)` for one label. -/
def sizeRank (s : String) : Nat := (lookupRank SIZE_ORDER 0 s).getD 999

/-! ## The raw table and `read_csv` column typing -/

/-- A raw table as handed over by the reader: rows of NA-or-text cells. -/
abbrev RawGrid : Type := List (List (Option String))

/-- `len(df.columns)`: the number of fields, fixed by the first row. -/
def width (g : RawGrid) : Nat := (g.headD []).length

/-- Raw column `c` of the grid (rows shorter than the width read as NA). -/
def colRaw (g : RawGrid) (c : Nat) : List (Option String) :=
  g.map (fun row => (row.get? c).getD none)

/-- A column whose non-missing cells all parse numerically becomes a numeric
column under `read_csv` type inference. -/
def numericCol (l : List (Option String)) : Bool :=
  l.all (fun oc => match oc with
    | none => true
    | some s => (parseNum s).isSome)

/-- `read_csv` column typing: numeric columns hold parsed numbers, any other
column keeps every cell as text. -/
def convertCol (l : List (Option String)) : List (Option Value) :=
  if numericCol l then l.map (fun oc => oc.bind (fun s => (parseNum s).map vnum))
  else l.map (fun oc => oc.map vstr)

/-- Typed column `c` of the grid. -/
def colVals (g : RawGrid) (c : Nat) : List (Option Value) := convertCol (colRaw g c)

/-- `df.iloc[r, c]` after type inference (out-of-range reads as NA). -/
def cellAt (g : RawGrid) (r c : Nat) : Option Value := ((colVals g c).get? r).getD none

/-! ## Store-block scan (`process_single_csv`, lines 229-266) -/

/-- `IDX_STORE_START`. -/
def IDX_STORE_START : Nat := 37

/-- `STOP_COLUMN_KEYWORD`. -/
def STOP_COLUMN_KEYWORD : String := "伝票枝番"

/-- Substring test, Python's `in` on strings. -/
def containsSub (needle hay : List Char) : Bool :=
  hay.tails.any (fun t => needle.isPrefixOf t)

/-- `str(df.iloc[0, i]) if not pd.isna(...) else ""`. -/
def headerStr (g : RawGrid) (i : Nat) : String :=
  match cellAt g 0 i with
  | none => ""
  | some v => pyStr v

/-- Number of iterations of `range(IDX_STORE_START, total_cols, 3)`. -/
def nIter (t : Nat) : Nat := if t ≤ IDX_STORE_START then 0 else (t - IDX_STORE_START + 2) / 3

/-- The candidate start columns visited by the block loop. -/
def candCols (t : Nat) : List Nat :=
  (List.range (nIter t)).map (fun k => IDX_STORE_START + 3 * k)

/-- The loop keeps block `i` when at least 3 columns remain and the row-0
header does not contain the stop keyword. -/
def blockOk (g : RawGrid) (i : Nat) : Bool :=
  decide (i + 2 < width g) && ! containsSub STOP_COLUMN_KEYWORD.data (headerStr g i).data

/-- Start columns of the store blocks actually processed: the loop `break`s at
the first failing candidate. -/
def scanBlocks (g : RawGrid) : List Nat := (candCols (width g)).takeWhile (blockOk g)

/-- `pd.to_numeric(..., errors="coerce").fillna(0)` on one typed cell. -/
def coerceQty : Option Value → ℚ
  | none => 0
  | some (vnum q) => q
  | some (vstr s) => (parseNum s).getD 0

/-- `str(cell).strip() if not pd.isna(cell) else ""`. -/
def strCellTrim : Option Value → String
  | none => ""
  | some v => String.mk (trimChars (pyStr v).data)

/-- One row of the long relation `final_df` (after the positional re-join with
the descriptive columns and the size normalization of line 282). -/
structure Fact where
  deliveryDate : Option Value
  clientName : Option Value
  mkCode : Option Value
  prodName : Option Value
  colorCode : Option Value
  colorName : Option Value
  size : String
  jan : Option Value
  storeCode : String
  storeName : String
  qty : ℚ
  origIdx : Nat
deriving DecidableEq, Repr

/-- Number of data rows (`df.iloc[ROW_IDX_DATA_START:]`). -/
def nDataRows (g : RawGrid) : Nat := g.length - 1

/-- The fact emitted for data row `r0` (0-based position in `df_data`) of the
block starting at column `i`. -/
def mkFact (g : RawGrid) (r0 : Nat) (sc sn : String) (q : ℚ) : Fact :=
  { deliveryDate := cellAt g (r0 + 1) 3
    clientName := cellAt g (r0 + 1) 8
    mkCode := cellAt g (r0 + 1) 14
    prodName := cellAt g (r0 + 1) 15
    colorCode := cellAt g (r0 + 1) 21
    colorName := cellAt g (r0 + 1) 23
    size := normalizeCell (cellAt g (r0 + 1) 25)
    jan := cellAt g (r0 + 1) 16
    storeCode := sc
    storeName := sn
    qty := q
    origIdx := r0 }

/-- The facts of the block starting at column `i`: coerce the quantity column
and keep the rows with positive quantity. -/
def blockFacts (g : RawGrid) (i : Nat) : List Fact :=
  let sc := strCellTrim (cellAt g 1 i)
  let sn := strCellTrim (cellAt g 1 (i + 1))
  (List.range (nDataRows g)).filterMap (fun r0 =>
    let q := coerceQty (cellAt g (r0 + 1) (i + 2))
    if qposB q then some (mkFact g r0 sc sn q) else none)

/-- `long_df` joined back to the descriptive columns: the full fact sequence,
block-major as produced by `pd.concat(store_data_list)`. -/
def reshapeFacts (g : RawGrid) : List Fact := (scanBlocks g).flatMap (blockFacts g)

/-! ## Stable multi-column sort (`sort_df_with_custom_size` / `sort_values`) -/

/-- Totally ordered stand-in for one sort-key cell: numbers sort before
strings (the cross-type case is never reached on a non-mixed column) and
missing values sort last (`na_position="last"`). -/
abbrev SKey : Type := Lex (Nat × Lex (ℚ × String))

/-- Embed a sort-key cell in the total order. -/
def tauOf : Option Value → SKey
  | some (vnum q) => toLex (0, toLex (q, ""))
  | some (vstr s) => toLex (1, toLex (0, s))
  | none => toLex (2, toLex (0, ""))

/-- Is the cell a (non-missing) string? -/
def isStrC : Option Value → Bool
  | some (vstr _) => true
  | _ => false

/-- Is the cell a (non-missing) number? -/
def isNumC : Option Value → Bool
  | some (vnum _) => true
  | _ => false

/-- A key column holding both strings and numbers makes `sort_values` raise
`TypeError` while ordering the column's unique values. -/
def mixedCol (l : List (Option Value)) : Bool := l.any isStrC && l.any isNumC

/-- Comparison of index-tagged rows: by key, ties by original position.  A
stable sort over the keys is exactly a sort over this total order. -/
def pairLe {ρ : Type} (k : ρ → List SKey) (x y : Nat × ρ) : Prop :=
  toLex (k x.2, x.1) ≤ toLex (k y.2, y.1)

instance {ρ : Type} (k : ρ → List SKey) : DecidableRel (pairLe k) := fun x y =>
  inferInstanceAs (Decidable (toLex (k x.2, x.1) ≤ toLex (k y.2, y.1)))

instance {ρ : Type} (k : ρ → List SKey) : IsTotal (Nat × ρ) (pairLe k) :=
  ⟨fun _ _ => le_total _ _⟩

instance {ρ : Type} (k : ρ → List SKey) : IsTrans (Nat × ρ) (pairLe k) :=
  ⟨fun _ _ _ h1 h2 => le_trans h1 h2⟩

/-- Index-tagged stable sort of the rows by their key lists. -/
def sortPairs {ρ : Type} (k : ρ → List SKey) (rows : List ρ) : List (Nat × ρ) :=
  rows.enum.insertionSort (pairLe k)

/-- The stable sort itself. -/
def sortRows {ρ : Type} (k : ρ → List SKey) (rows : List ρ) : List ρ :=
  (sortPairs k rows).map Prod.snd

/-- `df.sort_values(by=keys)`: `TypeError` on a mixed key column, otherwise a
stable lexicographic sort with missing keys last. -/
def sortDF {ρ : Type} (keys : List (ρ → Option Value)) (rows : List ρ) :
    Except Unit (List ρ) :=
  if keys.any (fun kf => mixedCol (rows.map kf)) then Except.error ()
  else Except.ok (sortRows (fun r => keys.map (fun kf => tauOf (kf r))) rows)

/-- The `_size_rank` sort key attached by `sort_df_with_custom_size`. -/
def rankCell (size : String) : Option Value :=
  some (vnum ((sizeRank (normalizeStr size) : Nat) : ℚ))

/-! ## Grouped aggregation (`groupby(...).sum()`) -/

/-- Distinct keys in order of first occurrence (`groupby` group identities;
the final row order of reports 1-2 is fixed by the later explicit sort, and
report 3 partitions with `sort=False`). -/
def firstKeysAux {K : Type} [DecidableEq K] (seen : List K) : List K → List K
  | [] => []
  | k :: ks =>
    if k ∈ seen then firstKeysAux seen ks
    else k :: firstKeysAux (k :: seen) ks

/-- Distinct keys in order of first occurrence. -/
def firstKeys {K : Type} [DecidableEq K] (l : List K) : List K := firstKeysAux [] l

/-- Total quantity of a list of facts. -/
def sumQ (fs : List Fact) : ℚ := qSum (fs.map Fact.qty)

/-- `group_cols_1 = ["商品名", "MK品番", "MK_COLOR", "色名", "サイズ"]`. -/
def key1 (f : Fact) :
    Option Value × Option Value × Option Value × Option Value × String :=
  (f.prodName, f.mkCode, f.colorCode, f.colorName, f.size)

/-- `groupby` drops a row whose grouping key has a missing component
(`dropna=True`); the size is always a (possibly empty) string. -/
def keep1 (f : Fact) : Bool :=
  f.prodName.isSome && f.mkCode.isSome && f.colorCode.isSome && f.colorName.isSome

/-- One row of report 1 (`out1`): the grouping key plus the summed quantity
(`合計枚数`).  The constant `チェック` column is presentation only. -/
structure Out1Row where
  prodName : Option Value
  mkCode : Option Value
  colorCode : Option Value
  colorName : Option Value
  size : String
  total : ℚ
deriving DecidableEq, Repr

/-- `final_df.groupby(group_cols_1, as_index=False)["数量"].sum()`. -/
def groupRows1 (facts : List Fact) : List Out1Row :=
  let l := facts.filter keep1
  (firstKeys (l.map key1)).map (fun k =>
    ⟨k.1, k.2.1, k.2.2.1, k.2.2.2.1, k.2.2.2.2,
      sumQ (l.filter (fun f => key1 f = k))⟩)

/-- `group_cols_2` prefixes the center name. -/
def key2 (f : Fact) :
    Option Value ×
      (Option Value × Option Value × Option Value × Option Value × String) :=
  (f.clientName, key1 f)

/-- Row-drop condition of the report-2 `groupby`. -/
def keep2 (f : Fact) : Bool := f.clientName.isSome && keep1 f

/-- One row of the report-2 grouped frame (`out2_base`): center, product key,
summed quantity (`発注数`). -/
structure Out2Row where
  center : Option Value
  prodName : Option Value
  mkCode : Option Value
  colorCode : Option Value
  colorName : Option Value
  size : String
  qty : ℚ
deriving DecidableEq, Repr

/-- `final_df.groupby(group_cols_2, as_index=False)["数量"].sum()`. -/
def groupRows2 (facts : List Fact) : List Out2Row :=
  let l := facts.filter keep2
  (firstKeys (l.map key2)).map (fun k =>
    ⟨k.1, k.2.1, k.2.2.1, k.2.2.2.1, k.2.2.2.2.1, k.2.2.2.2.2,
      sumQ (l.filter (fun f => key2 f = k))⟩)

/-! ## The three reports -/

/-- Sort keys of report 1: `["商品名", "品番", "MK_COLOR", "サイズ"]` with the
size replaced by its `_size_rank`. -/
def sortKeys1 : List (Out1Row → Option Value) :=
  [fun r => r.prodName, fun r => r.mkCode, fun r => r.colorCode,
    fun r => rankCell r.size]

/-- Report 1: grouped rows, custom-sorted. -/
def mkOut1 (facts : List Fact) : Except Unit (List Out1Row) :=
  sortDF sortKeys1 (groupRows1 facts)

/-- Sort keys of one center sheet of report 2. -/
def sortKeys2 : List (Out2Row → Option Value) :=
  [fun r => r.prodName, fun r => r.mkCode, fun r => r.colorCode,
    fun r => rankCell r.size]

/-- Effectful map over a list in the `Except` monad: the per-center loop of
report 2, stopping at the first raised error. -/
def exceptMapList {α β : Type} (f : α → Except Unit β) : List α → Except Unit (List β)
  | [] => Except.ok []
  | a :: t =>
    match f a with
    | Except.error e => Except.error e
    | Except.ok b => (exceptMapList f t).map (fun bs => b :: bs)

/-- Report 2: one sheet per distinct center (in first-occurrence order of the
grouped frame), each sheet custom-sorted.  A sort failure on any sheet aborts
the report, as the per-center loop raises. -/
def mkOut2 (facts : List Fact) : Except Unit (List (Option Value × List Out2Row)) :=
  let grouped := groupRows2 facts
  let centers := firstKeys (grouped.map Out2Row.center)
  exceptMapList (fun c =>
    (sortDF sortKeys2 (grouped.filter (fun r => r.center = c))).map (fun rows => (c, rows)))
    centers

/-- Sort keys of report 3 (on ungrouped facts):
`["得意先名（センター名）", "店舗コード", "店舗名", "商品名", "品番", "MK_COLOR", "サイズ"]`. -/
def sortKeys3 : List (Fact → Option Value) :=
  [fun f => f.clientName, fun f => some (vstr f.storeCode),
    fun f => some (vstr f.storeName), fun f => f.prodName, fun f => f.mkCode,
    fun f => f.colorCode, fun f => rankCell f.size]

/-- One store sheet of report 3: the partition's facts plus the total-quantity
scalar written as the trailing `合計` row. -/
structure StoreSheet where
  storeCode : String
  storeName : String
  rows : List Fact
  total : ℚ
deriving DecidableEq, Repr

/-- The store key of a fact, used by `groupby(["店舗コード", "店舗名"], sort=False)`. -/
def storeKey (f : Fact) : String × String := (f.storeCode, f.storeName)

/-- Report 3: facts sorted, then partitioned by store in first-occurrence
order. -/
def mkOut3 (facts : List Fact) : Except Unit (List StoreSheet) :=
  (sortDF sortKeys3 facts).map (fun sorted =>
    (firstKeys (sorted.map storeKey)).map (fun k =>
      let rs := sorted.filter (fun f => storeKey f = k)
      ⟨k.1, k.2, rs, sumQ rs⟩))

/-- The three aggregated outputs of one file. -/
structure Outputs where
  out1 : List Out1Row
  out2 : List (Option Value × List Out2Row)
  out3 : List StoreSheet
deriving DecidableEq, Repr

/-- Result of the core pipeline on one table: the per-file skip conditions,
an escaped `TypeError` from a sort, or the three reports. -/
inductive PResult where
  | malformed
  | noData
  | sortError
  | ok (outs : Outputs)
deriving DecidableEq, Repr

/-- The reshape-and-aggregate pipeline of `process_single_csv` (file reading
and artifact rendering excluded). -/
def pipeline (g : RawGrid) : PResult :=
  if width g ≤ 26 then .malformed
  else if (reshapeFacts g).isEmpty then .noData
  else
    match mkOut1 (reshapeFacts g) with
    | .error _ => .sortError
    | .ok o1 =>
      match mkOut2 (reshapeFacts g) with
      | .error _ => .sortError
      | .ok o2 =>
        match mkOut3 (reshapeFacts g) with
        | .error _ => .sortError
        | .ok o3 => .ok ⟨o1, o2, o3⟩

/-! ## Derived measurement definitions used by the stated properties -/

/-- The positive part of a coerced quantity cell. -/
def posPart (q : ℚ) : ℚ := if qposB q then q else 0

/-- Sum of all quantity cells of the store-block region (the scanned blocks)
that coerce to a positive number. -/
def regionPosSum (g : RawGrid) : ℚ :=
  qSum ((scanBlocks g).map (fun i =>
    qSum ((List.range (nDataRows g)).map (fun r0 =>
      posPart (coerceQty (cellAt g (r0 + 1) (i + 2)))))))

/-! ## Concrete witness data -/

/-- A 40-cell row of missing cells. -/
def blankRow : List (Option String) := List.replicate 40 none

/-- Fill the given cells of a row. -/
def setCells (row : List (Option String)) (l : List (Nat × String)) :
    List (Option String) :=
  l.foldl (fun r p => r.set p.1 (some p.2)) row

/-- A minimal accepted table: 40 columns, one data row, one store block with
quantity 2. -/
def gW : RawGrid :=
  [blankRow,
   setCells blankRow
     [(8, "CenterX"), (14, "MK1"), (15, "Shirt"), (21, "C1"), (23, "Red"),
      (25, "M"), (37, "S01"), (38, "StoreA"), (39, "2")]]

/-- The single fact of `gW`. -/
def factW : Fact :=
  { deliveryDate := none, clientName := some (vstr "CenterX"),
    mkCode := some (vstr "MK1"), prodName := some (vstr "Shirt"),
    colorCode := some (vstr "C1"), colorName := some (vstr "Red"),
    size := "M", jan := none, storeCode := "S01", storeName := "StoreA",
    qty := 2, origIdx := 0 }

/-- A fact whose product-name grouping field is missing. -/
def factNoProd : Fact :=
  { deliveryDate := none, clientName := some (vstr "CenterX"),
    mkCode := some (vstr "MK1"), prodName := none,
    colorCode := some (vstr "C1"), colorName := some (vstr "Red"),
    size := "M", jan := none, storeCode := "S01", storeName := "StoreA",
    qty := 1, origIdx := 0 }

/-- The single report-1 row of `gW`. -/
def out1RowW : Out1Row :=
  ⟨some (vstr "Shirt"), some (vstr "MK1"), some (vstr "C1"), some (vstr "Red"), "M", 2⟩

/-- The single report-2 row of `gW`. -/
def out2RowW : Out2Row :=
  ⟨some (vstr "CenterX"), some (vstr "Shirt"), some (vstr "MK1"), some (vstr "C1"),
    some (vstr "Red"), "M", 2⟩

/-- The single report-3 sheet of `gW`. -/
def sheetW : StoreSheet := ⟨"S01", "StoreA", [factW], 2⟩

/-- The full output of the pipeline on `gW`. -/
def outsW : Outputs :=
  ⟨[out1RowW], [(some (vstr "CenterX"), [out2RowW])], [sheetW]⟩

/-- A 43-column table whose second store block (index 1, column 40) has the
stop keyword in its row-0 header; its quantity 9 must be ignored. -/
def gStop : RawGrid :=
  [setCells (List.replicate 43 none) [(40, "伝票枝番")],
   setCells (List.replicate 43 none)
     [(15, "Shirt"), (37, "S01"), (38, "A"), (39, "2"),
      (40, "S02"), (41, "B"), (42, "9")]]

/-! ## Per-file control flow (`process_single_csv` boundaries and `main`) -/

/-- Result of reading one input file; the encoding fallback chain is the
reader's and both failures land in the caught `except` at lines 208-210. -/
inductive ReadResult where
  | readFail
  | table (g : RawGrid)

/-- Whether each of the three artifact writes succeeds (the rendering
collaborator is external). -/
structure RenderOks where
  r1 : Bool
  r2 : Bool
  r3 : Bool

/-- Outcome of `process_single_csv` on one file: a logged skip or early
return, a normal completion listing the reports written, or an exception
escaping the function (listing the reports written before it). -/
inductive FileOutcome where
  | readErrorLogged
  | skippedColumns
  | skippedNoData
  | done (written : List Nat)
  | raised (written : List Nat)
deriving DecidableEq, Repr

/-- `process_single_csv`: read errors are caught, the column-count and
no-data conditions return early, the three reports are produced in order, and
only the report-3 block is wrapped in `try/except` — a sort `TypeError` or a
render failure in reports 1 or 2 escapes. -/
def processFile (rr : ReadResult) (ro : RenderOks) : FileOutcome :=
  match rr with
  | .readFail => .readErrorLogged
  | .table g =>
    if width g ≤ 26 then .skippedColumns
    else if (reshapeFacts g).isEmpty then .skippedNoData
    else
      match mkOut1 (reshapeFacts g) with
      | .error _ => .raised []
      | .ok _ =>
        if ro.r1 = false then .raised []
        else
          match mkOut2 (reshapeFacts g) with
          | .error _ => .raised [1]
          | .ok _ =>
            if ro.r2 = false then .raised [1]
            else
              match mkOut3 (reshapeFacts g) with
              | .error _ => .raised [1, 2]
              | .ok _ => if ro.r3 = false then .done [1, 2] else .done [1, 2, 3]

/-- The loop of `main`: files are processed in order and an exception escaping
`process_single_csv` aborts the whole run. -/
def runBatch : List (ReadResult × RenderOks) → List FileOutcome
  | [] => []
  | (rr, ro) :: rest =>
    match processFile rr ro with
    | .raised w => [.raised w]
    | o => o :: runBatch rest

/-! ## Auxiliary lemmas: first-occurrence keys and fiberwise sums -/

theorem qposB_iff (q : ℚ) : qposB q = true ↔ 0 < q := by
  simp [qposB, Rat.num_pos]

theorem qAdd_eq_add (a b : ℚ) : qAdd a b = a + b := by
  have ha : ((a.den : ℚ)) ≠ 0 := Nat.cast_ne_zero.mpr a.den_nz
  have hb : ((b.den : ℚ)) ≠ 0 := Nat.cast_ne_zero.mpr b.den_nz
  rw [qAdd, Rat.mkRat_eq_div]
  conv_rhs => rw [← Rat.num_div_den a, ← Rat.num_div_den b]
  rw [div_add_div _ _ ha hb]
  push_cast
  ring_nf

theorem qSum_eq_sum (l : List ℚ) : qSum l = l.sum := by
  induction l with
  | nil => rfl
  | cons a l ih => simp [qSum, List.foldr] at ih ⊢; rw [qAdd_eq_add, ih]

theorem mem_firstKeysAux {K : Type} [DecidableEq K] (seen : List K) (l : List K)
    (x : K) : x ∈ firstKeysAux seen l ↔ x ∈ l ∧ x ∉ seen := by
  induction l generalizing seen with
  | nil => simp [firstKeysAux]
  | cons k ks ih =>
    by_cases hk : k ∈ seen
    · rw [firstKeysAux, if_pos hk, ih]
      simp only [List.mem_cons]
      constructor
      · rintro ⟨h1, h2⟩; exact ⟨Or.inr h1, h2⟩
      · rintro ⟨rfl | h1, h2⟩
        · exact absurd hk h2
        · exact ⟨h1, h2⟩
    · rw [firstKeysAux, if_neg hk]
      simp only [List.mem_cons, ih, List.mem_cons]
      constructor
      · rintro (rfl | ⟨h1, h2⟩)
        · exact ⟨Or.inl rfl, hk⟩
        · exact ⟨Or.inr h1, fun hx => h2 (Or.inr hx)⟩
      · rintro ⟨rfl | h1, h2⟩
        · exact Or.inl rfl
        · by_cases hxk : x = k
          · exact Or.inl hxk
          · exact Or.inr ⟨h1, fun hx => hx.elim hxk h2⟩

theorem mem_firstKeys {K : Type} [DecidableEq K] (l : List K) (x : K) :
    x ∈ firstKeys l ↔ x ∈ l := by
  simp [firstKeys, mem_firstKeysAux]

theorem nodup_firstKeysAux {K : Type} [DecidableEq K] (seen : List K) (l : List K) :
    (firstKeysAux seen l).Nodup := by
  induction l generalizing seen with
  | nil => simp [firstKeysAux]
  | cons k ks ih =>
    by_cases hk : k ∈ seen
    · simpa [firstKeysAux, if_pos hk] using ih seen
    · simp only [firstKeysAux, if_neg hk, List.nodup_cons]
      refine ⟨fun hmem => ?_, ih (k :: seen)⟩
      rw [mem_firstKeysAux] at hmem
      exact hmem.2 (by simp)

theorem nodup_firstKeys {K : Type} [DecidableEq K] (l : List K) :
    (firstKeys l).Nodup := nodup_firstKeysAux [] l

theorem sum_filter_split {α : Type} (p : α → Bool) (w : α → ℚ) (l : List α) :
    ((l.filter p).map w).sum + ((l.filter (fun x => ! p x)).map w).sum
      = (l.map w).sum := by
  induction l with
  | nil => simp
  | cons a t ih =>
    by_cases hp : p a <;> simp [List.filter, hp, ← ih] <;> ring

/-- Sum, over the keys of `ks` satisfying `P`, of the `w`-weight of each key's
fiber in `l`: provided `ks` is duplicate-free and covers the keys of `l`, this
is the total weight of the rows of `l` whose key satisfies `P`. -/
theorem sum_fibers {K α : Type} [DecidableEq K] (key : α → K) (w : α → ℚ)
    (P : K → Bool) :
    ∀ ks : List K, ks.Nodup → ∀ l : List α, (∀ x ∈ l, key x ∈ ks) →
      (((ks.filter P).map
          (fun k => ((l.filter (fun x => key x = k)).map w).sum)).sum)
        = ((l.filter (fun x => P (key x))).map w).sum := by
  intro ks
  induction ks with
  | nil =>
    intro _ l hcov
    cases l with
    | nil => simp
    | cons a t => exact absurd (hcov a (by simp)) (by simp)
  | cons k ks ih =>
    intro hnd l hcov
    have hknot : k ∉ ks := (List.nodup_cons.mp hnd).1
    have hnd' : ks.Nodup := (List.nodup_cons.mp hnd).2
    have hcov' : ∀ x ∈ l.filter (fun x => ! (key x = k : Bool)), key x ∈ ks := by
      intro x hx
      rw [List.mem_filter] at hx
      have hmem := hcov x hx.1
      rw [List.mem_cons] at hmem
      rcases hmem with h | h
      · exfalso; revert hx; simp [h]
      · exact h
    have hfib : ∀ k' ∈ ks,
        ((l.filter (fun x => ! (key x = k : Bool))).filter
            (fun x => key x = k')).map w
          = (l.filter (fun x => key x = k')).map w := by
      intro k' hk'
      have hne : k' ≠ k := fun h => hknot (h ▸ hk')
      rw [List.filter_filter]
      congr 1
      apply List.filter_congr
      intro x _
      by_cases h : key x = k'
      · simp [h, hne]
      · simp [h]
    have ihl := ih hnd' (l.filter (fun x => ! (key x = k : Bool))) hcov'
    have hmap : ((ks.filter P).map
        (fun k' => (((l.filter (fun x => ! (key x = k : Bool))).filter
            (fun x => key x = k')).map w).sum)).sum
        = ((ks.filter P).map
        (fun k' => ((l.filter (fun x => key x = k')).map w).sum)).sum := by
      apply congrArg List.sum
      apply List.map_congr_left
      intro k' hk'
      rw [hfib k' (List.mem_of_mem_filter hk')]
    -- the inner-filter composition on the right-hand side of `ihl`
    have hcomp : (l.filter (fun x => ! (key x = k : Bool))).filter
          (fun x => P (key x))
        = l.filter (fun x => P (key x) && ! (key x = k : Bool)) := by
      rw [List.filter_filter]
    by_cases hPk : P k
    · rw [List.filter_cons_of_pos (by simp [hPk]), List.map_cons, List.sum_cons,
        hmap.symm, ihl, hcomp]
      have hsplit := sum_filter_split (fun x => (key x = k : Bool)) w
        (l.filter (fun x => P (key x)))
      rw [← hsplit]
      have e1 : (l.filter (fun x => P (key x))).filter
            (fun x => (key x = k : Bool))
          = l.filter (fun x => (key x = k : Bool)) := by
        rw [List.filter_filter]
        apply List.filter_congr
        intro x _
        by_cases h : key x = k <;> simp [h, hPk]
      have e2 : (l.filter (fun x => P (key x))).filter
            (fun x => ! (key x = k : Bool))
          = l.filter (fun x => P (key x) && ! (key x = k : Bool)) := by
        rw [List.filter_filter]
        apply List.filter_congr
        intro x _
        by_cases h : key x = k <;> simp [h]
      rw [e1, e2]
    · rw [List.filter_cons_of_neg (by simp [hPk]), hmap.symm, ihl, hcomp]
      congr 1
      apply congrArg
      apply List.filter_congr
      intro x _
      by_cases h : key x = k <;> simp [h, hPk]

/-! ## Lemmas about the reshaper -/

theorem mem_blockFacts {g : RawGrid} {i : Nat} {f : Fact}
    (h : f ∈ blockFacts g i) :
    ∃ r0, r0 < nDataRows g ∧
      f = mkFact g r0 (strCellTrim (cellAt g 1 i)) (strCellTrim (cellAt g 1 (i + 1)))
        (coerceQty (cellAt g (r0 + 1) (i + 2))) ∧
      qposB (coerceQty (cellAt g (r0 + 1) (i + 2))) = true := by
  rw [blockFacts, List.mem_filterMap] at h
  obtain ⟨r0, hr0, hf⟩ := h
  rw [List.mem_range] at hr0
  by_cases hq : qposB (coerceQty (cellAt g (r0 + 1) (i + 2)))
  · rw [if_pos hq] at hf
    exact ⟨r0, hr0, (Option.some_inj.mp hf).symm, hq⟩
  · rw [if_neg hq] at hf
    cases hf

theorem mem_reshapeFacts {g : RawGrid} {f : Fact} (h : f ∈ reshapeFacts g) :
    ∃ i ∈ scanBlocks g, ∃ r0, r0 < nDataRows g ∧
      f = mkFact g r0 (strCellTrim (cellAt g 1 i)) (strCellTrim (cellAt g 1 (i + 1)))
        (coerceQty (cellAt g (r0 + 1) (i + 2))) ∧
      qposB (coerceQty (cellAt g (r0 + 1) (i + 2))) = true := by
  rw [reshapeFacts, List.mem_flatMap] at h
  obtain ⟨i, hi, hf⟩ := h
  exact ⟨i, hi, mem_blockFacts hf⟩

/-- Every fact carries a strictly positive quantity (`block[block["数量"] > 0]`). -/
theorem reshape_qty_pos {g : RawGrid} {f : Fact} (h : f ∈ reshapeFacts g) :
    0 < f.qty := by
  obtain ⟨i, _, r0, _, rfl, hq⟩ := mem_reshapeFacts h
  exact (qposB_iff _).mp hq

theorem sum_filterMap_ifpos (xs : List Nat) (qf : Nat → ℚ) (mk : Nat → Fact)
    (hmk : ∀ x, (mk x).qty = qf x) :
    ((xs.filterMap (fun x => if qposB (qf x) then some (mk x) else none)).map
        Fact.qty).sum
      = (xs.map (fun x => posPart (qf x))).sum := by
  induction xs with
  | nil => simp
  | cons a t ih =>
    simp only [List.filterMap_cons, List.map_cons, List.sum_cons]
    by_cases hq : qposB (qf a)
    · rw [if_pos hq, List.map_cons, List.sum_cons, hmk, posPart, if_pos hq, ih]
    · rw [if_neg hq, posPart, if_neg hq, ih, zero_add]

theorem sumQ_blockFacts (g : RawGrid) (i : Nat) :
    sumQ (blockFacts g i)
      = qSum ((List.range (nDataRows g)).map (fun r0 =>
          posPart (coerceQty (cellAt g (r0 + 1) (i + 2))))) := by
  rw [sumQ, qSum_eq_sum, qSum_eq_sum, blockFacts]
  exact sum_filterMap_ifpos (List.range (nDataRows g))
    (fun r0 => coerceQty (cellAt g (r0 + 1) (i + 2)))
    (fun r0 => mkFact g r0 (strCellTrim (cellAt g 1 i))
      (strCellTrim (cellAt g 1 (i + 1))) (coerceQty (cellAt g (r0 + 1) (i + 2))))
    (fun _ => rfl)

theorem sumQ_append (a b : List Fact) : sumQ (a ++ b) = sumQ a + sumQ b := by
  simp [sumQ, qSum_eq_sum]

/-- Conservation at the reshaper: the total quantity of the long relation is
the total of the positive quantity cells of the scanned region. -/
theorem sumQ_reshapeFacts (g : RawGrid) : sumQ (reshapeFacts g) = regionPosSum g := by
  rw [reshapeFacts, regionPosSum, qSum_eq_sum]
  induction scanBlocks g with
  | nil => simp [sumQ, qSum_eq_sum]
  | cons i t ih =>
    rw [List.flatMap_cons, sumQ_append, List.map_cons, List.sum_cons, ih,
      sumQ_blockFacts]

/-! ## Lemmas about the stable sort -/

theorem sortRows_perm {ρ : Type} (k : ρ → List SKey) (rows : List ρ) :
    (sortRows k rows).Perm rows := by
  have h1 : (sortPairs k rows).Perm rows.enum := List.perm_insertionSort _ _
  have h2 := h1.map Prod.snd
  rwa [List.enum_map_snd] at h2

theorem mem_sortRows {ρ : Type} (k : ρ → List SKey) (rows : List ρ) (x : ρ) :
    x ∈ sortRows k rows ↔ x ∈ rows := (sortRows_perm k rows).mem_iff

theorem sumQ_perm {a b : List Fact} (h : a.Perm b) : sumQ a = sumQ b := by
  rw [sumQ, sumQ, qSum_eq_sum, qSum_eq_sum]
  exact (h.map Fact.qty).sum_eq

theorem sortDF_ok {ρ : Type} {keys : List (ρ → Option Value)} {rows sorted : List ρ}
    (h : sortDF keys rows = Except.ok sorted) : sorted.Perm rows := by
  rw [sortDF] at h
  split at h
  · cases h
  · exact (Except.ok.inj h) ▸ sortRows_perm _ rows

/-! ## Fiberwise sums specialised to the partitions -/

theorem qSum_fibers_all {K : Type} [DecidableEq K] (key : Fact → K) (l : List Fact) :
    (((firstKeys (l.map key)).map
        (fun k => sumQ (l.filter (fun f => key f = k)))).sum)
      = sumQ l := by
  have hnd := nodup_firstKeys (l.map key)
  have hcov : ∀ x ∈ l, key x ∈ firstKeys (l.map key) := by
    intro x hx
    rw [mem_firstKeys]
    exact List.mem_map_of_mem key hx
  have h := sum_fibers key Fact.qty (fun _ => true) (firstKeys (l.map key)) hnd l hcov
  simp only [List.filter_true] at h
  calc ((firstKeys (l.map key)).map
        (fun k => sumQ (l.filter (fun f => key f = k)))).sum
      = ((firstKeys (l.map key)).map
        (fun k => ((l.filter (fun f => key f = k)).map Fact.qty).sum)).sum := by
        apply congrArg List.sum
        apply List.map_congr_left
        intro k _
        rw [sumQ, qSum_eq_sum]
    _ = (l.map Fact.qty).sum := h
    _ = sumQ l := by rw [sumQ, qSum_eq_sum]

theorem qSum_fibers_filter {K : Type} [DecidableEq K] (key : Fact → K)
    (l : List Fact) (P : K → Bool) :
    ((((firstKeys (l.map key)).filter P).map
        (fun k => sumQ (l.filter (fun f => key f = k)))).sum)
      = ((l.filter (fun f => P (key f))).map Fact.qty).sum := by
  have hnd := nodup_firstKeys (l.map key)
  have hcov : ∀ x ∈ l, key x ∈ firstKeys (l.map key) := by
    intro x hx
    rw [mem_firstKeys]
    exact List.mem_map_of_mem key hx
  have h := sum_fibers key Fact.qty P (firstKeys (l.map key)) hnd l hcov
  calc (((firstKeys (l.map key)).filter P).map
        (fun k => sumQ (l.filter (fun f => key f = k)))).sum
      = (((firstKeys (l.map key)).filter P).map
        (fun k => ((l.filter (fun f => key f = k)).map Fact.qty).sum)).sum := by
        apply congrArg List.sum
        apply List.map_congr_left
        intro k _
        rw [sumQ, qSum_eq_sum]
    _ = ((l.filter (fun f => P (key f))).map Fact.qty).sum := h

/-- The report-3 sheets partition the sorted facts, so their row quantities
add up to the total quantity of the facts. -/
theorem mkOut3_sum {facts : List Fact} {sheets : List StoreSheet}
    (h : mkOut3 facts = Except.ok sheets) :
    ((sheets.map (fun s => sumQ s.rows)).sum) = sumQ facts := by
  rw [mkOut3] at h
  cases hs : sortDF sortKeys3 facts with
  | error e => rw [hs] at h; cases h
  | ok sorted =>
    rw [hs] at h
    simp only [Except.map] at h
    cases h
    have hperm := sortDF_ok hs
    calc (((firstKeys (sorted.map storeKey)).map (fun k =>
            let rs := sorted.filter (fun f => storeKey f = k)
            (⟨k.1, k.2, rs, sumQ rs⟩ : StoreSheet))).map (fun s => sumQ s.rows)).sum
        = ((firstKeys (sorted.map storeKey)).map (fun k =>
            sumQ (sorted.filter (fun f => storeKey f = k)))).sum := by
          rw [List.map_map]; rfl
      _ = sumQ sorted := qSum_fibers_all storeKey sorted
      _ = sumQ facts := sumQ_perm hperm

/-! ## Elimination lemmas for the pipeline stages -/

theorem exceptMapList_ok_mem {α β : Type} {f : α → Except Unit β} {l : List α}
    {res : List β} (h : exceptMapList f l = Except.ok res) :
    ∀ b ∈ res, ∃ a ∈ l, f a = Except.ok b := by
  induction l generalizing res with
  | nil =>
    rw [exceptMapList] at h
    cases h
    intro b hb
    cases hb
  | cons a t ih =>
    rw [exceptMapList] at h
    cases hfa : f a with
    | error e => rw [hfa] at h; cases h
    | ok b0 =>
      rw [hfa] at h
      cases hrest : exceptMapList f t with
      | error e => rw [hrest] at h; cases h
      | ok rest =>
        rw [hrest] at h
        cases h
        intro b hb
        rcases List.mem_cons.mp hb with rfl | hb
        · exact ⟨a, by simp, hfa⟩
        · obtain ⟨a', ha', hfa'⟩ := ih hrest b hb
          exact ⟨a', by simp [ha'], hfa'⟩

theorem exceptMapList_ok_of_all {α β : Type} {f : α → Except Unit β} (l : List α)
    (h : ∀ a ∈ l, ∃ b, f a = Except.ok b) :
    ∃ res, exceptMapList f l = Except.ok res := by
  induction l with
  | nil => exact ⟨[], rfl⟩
  | cons a t ih =>
    obtain ⟨b, hb⟩ := h a (by simp)
    obtain ⟨rest, hrest⟩ := ih (fun x hx => h x (by simp [hx]))
    exact ⟨b :: rest, by rw [exceptMapList, hb, hrest]; rfl⟩

theorem pipeline_ok_elim {g : RawGrid} {outs : Outputs}
    (h : pipeline g = PResult.ok outs) :
    26 < width g ∧ reshapeFacts g ≠ [] ∧
      mkOut1 (reshapeFacts g) = Except.ok outs.out1 ∧
      mkOut2 (reshapeFacts g) = Except.ok outs.out2 ∧
      mkOut3 (reshapeFacts g) = Except.ok outs.out3 := by
  rw [pipeline] at h
  split at h
  · cases h
  next hw =>
    split at h
    · cases h
    next hne =>
      split at h
      · cases h
      next o1 h1 =>
        split at h
        · cases h
        next o2 h2 =>
          split at h
          · cases h
          next o3 h3 =>
            cases h
            refine ⟨by omega, ?_, h1, h2, h3⟩
            intro hnil
            exact hne (by simp [hnil])

/-! ## Positivity of the grouped rows -/

theorem groupRows1_pos {facts : List Fact} (hpos : ∀ f ∈ facts, 0 < f.qty) :
    ∀ r ∈ groupRows1 facts, 0 < r.total := by
  intro r hr
  rw [groupRows1, List.mem_map] at hr
  obtain ⟨k, hk, rfl⟩ := hr
  rw [mem_firstKeys, List.mem_map] at hk
  obtain ⟨f0, hf0, hkey⟩ := hk
  have hfib : f0 ∈ (facts.filter keep1).filter (fun f => key1 f = k) := by
    rw [List.mem_filter]
    exact ⟨hf0, by simp [hkey]⟩
  show 0 < sumQ ((facts.filter keep1).filter (fun f => key1 f = k))
  rw [sumQ, qSum_eq_sum]
  apply List.sum_pos
  · intro q hq
    rw [List.mem_map] at hq
    obtain ⟨f, hf, rfl⟩ := hq
    exact hpos f (List.mem_of_mem_filter (List.mem_of_mem_filter hf))
  · intro hnil
    rw [List.map_eq_nil_iff] at hnil
    rw [hnil] at hfib
    cases hfib

theorem groupRows2_pos {facts : List Fact} (hpos : ∀ f ∈ facts, 0 < f.qty) :
    ∀ r ∈ groupRows2 facts, 0 < r.qty := by
  intro r hr
  rw [groupRows2, List.mem_map] at hr
  obtain ⟨k, hk, rfl⟩ := hr
  rw [mem_firstKeys, List.mem_map] at hk
  obtain ⟨f0, hf0, hkey⟩ := hk
  have hfib : f0 ∈ (facts.filter keep2).filter (fun f => key2 f = k) := by
    rw [List.mem_filter]
    exact ⟨hf0, by simp [hkey]⟩
  show 0 < sumQ ((facts.filter keep2).filter (fun f => key2 f = k))
  rw [sumQ, qSum_eq_sum]
  apply List.sum_pos
  · intro q hq
    rw [List.mem_map] at hq
    obtain ⟨f, hf, rfl⟩ := hq
    exact hpos f (List.mem_of_mem_filter (List.mem_of_mem_filter hf))
  · intro hnil
    rw [List.map_eq_nil_iff] at hnil
    rw [hnil] at hfib
    cases hfib

/-! ## Claims -/

/-- C1.  Conservation: for every input table accepted by the reshaper, the sum
of the quantity values over all rows emitted in the ByStore report (built from
the ungrouped facts) equals the sum of all quantity cells coercing to a
positive number in the store-block region (the blocks scanned from the start
column in steps of 3, up to the stop-keyword block or until fewer than 3
columns remain). -/
theorem C1_conservation (g : RawGrid) (sheets : List StoreSheet)
    (h : mkOut3 (reshapeFacts g) = Except.ok sheets) :
    ((sheets.map (fun s => sumQ s.rows)).sum) = regionPosSum g :=
  (mkOut3_sum h).trans (sumQ_reshapeFacts g)

theorem C1_conservation_witness :
    mkOut3 (reshapeFacts gW) = Except.ok [sheetW]
    ∧ (([sheetW].map (fun s => sumQ s.rows)).sum) = regionPosSum gW :=
  ⟨by decide, C1_conservation gW [sheetW] (by decide)⟩

/-- C2.  Zero-filtering: every fact produced by the reshaper has quantity
strictly greater than 0; a missing or non-numeric quantity cell coerces to
zero and yields no fact; and every row of every report of an accepted table
carries a positive quantity. -/
theorem C2_zero_filtering (g : RawGrid) (outs : Outputs) :
    (∀ f ∈ reshapeFacts g, 0 < f.qty)
    ∧ coerceQty none = 0
    ∧ (∀ s, parseNum s = none → coerceQty (some (vstr s)) = 0)
    ∧ (pipeline g = PResult.ok outs →
        (∀ r ∈ outs.out1, 0 < r.total)
        ∧ (∀ p ∈ outs.out2, ∀ r ∈ p.2, 0 < r.qty)
        ∧ (∀ s ∈ outs.out3, ∀ f ∈ s.rows, 0 < f.qty)) := by
  refine ⟨fun f hf => reshape_qty_pos hf, rfl, ?_, ?_⟩
  · intro s hs
    simp [coerceQty, hs]
  · intro hok
    obtain ⟨_, _, h1, h2, h3⟩ := pipeline_ok_elim hok
    have hpos : ∀ f ∈ reshapeFacts g, 0 < f.qty := fun f hf => reshape_qty_pos hf
    refine ⟨?_, ?_, ?_⟩
    · rw [mkOut1] at h1
      intro r hr
      exact groupRows1_pos hpos r ((sortDF_ok h1).subset hr)
    · simp only [mkOut2] at h2
      intro p hp
      obtain ⟨c, _, hfc⟩ := exceptMapList_ok_mem h2 p hp
      cases hsc : sortDF sortKeys2 ((groupRows2 (reshapeFacts g)).filter
          (fun r => r.center = c)) with
      | error e => rw [hsc] at hfc; cases hfc
      | ok rows =>
        rw [hsc] at hfc
        simp only [Except.map] at hfc
        cases hfc
        intro r hr
        have hmem := (sortDF_ok hsc).subset hr
        exact groupRows2_pos hpos r (List.mem_of_mem_filter hmem)
    · rw [mkOut3] at h3
      cases hs3 : sortDF sortKeys3 (reshapeFacts g) with
      | error e => rw [hs3] at h3; cases h3
      | ok sorted =>
        rw [hs3] at h3
        simp only [Except.map] at h3
        have h3' := Except.ok.inj h3
        intro s hs f hf
        rw [← h3', List.mem_map] at hs
        obtain ⟨k, _, rfl⟩ := hs
        have : f ∈ sorted := List.mem_of_mem_filter hf
        exact hpos f ((sortDF_ok hs3).subset this)

theorem C2_zero_filtering_witness :
    (0 : ℚ) < factW.qty ∧ coerceQty (some (vstr "abc")) = 0
    ∧ (0 : ℚ) < out1RowW.total :=
  ⟨(C2_zero_filtering gW outsW).1 factW (by decide),
   (C2_zero_filtering gW outsW).2.2.1 "abc" (by decide),
   ((C2_zero_filtering gW outsW).2.2.2 (by decide)).1 out1RowW (by decide)⟩

theorem pairwise_lt_candCols (t : Nat) : (candCols t).Pairwise (· < ·) := by
  have h := List.pairwise_lt_range (nIter t)
  exact List.Pairwise.map (fun k => IDX_STORE_START + 3 * k)
    (fun a b (hab : a < b) =>
      show IDX_STORE_START + 3 * a < IDX_STORE_START + 3 * b by omega) h

/-- C3.  Stop-marker respected: if the row-0 header of candidate block `k`
(column start + 3k) contains the stop keyword, then every scanned block starts
strictly before that column, and every fact of the long relation comes from
such a block. -/
theorem C3_stop_marker (g : RawGrid) (k : Nat)
    (hstop : containsSub STOP_COLUMN_KEYWORD.data
      (headerStr g (IDX_STORE_START + 3 * k)).data = true) :
    (∀ i ∈ scanBlocks g, i < IDX_STORE_START + 3 * k)
    ∧ reshapeFacts g
        = ((scanBlocks g).filter (fun i => i < IDX_STORE_START + 3 * k)).flatMap
            (blockFacts g) := by
  have hmain : ∀ i ∈ scanBlocks g, i < IDX_STORE_START + 3 * k := by
    intro i hi
    have hcand : i ∈ candCols (width g) :=
      (List.takeWhile_sublist (blockOk g)).subset hi
    rw [candCols, List.mem_map] at hcand
    obtain ⟨j, hj, rfl⟩ := hcand
    rw [List.mem_range] at hj
    by_cases hk : k < nIter (width g)
    · -- the stop block is a candidate: everything kept precedes it
      have hcmem : IDX_STORE_START + 3 * k ∈ candCols (width g) := by
        rw [candCols, List.mem_map]
        exact ⟨k, List.mem_range.mpr hk, rfl⟩
      have hcnot : IDX_STORE_START + 3 * k ∉ (candCols (width g)).takeWhile (blockOk g) := by
        intro hc
        have hok := List.mem_takeWhile_imp hc
        rw [blockOk, hstop] at hok
        simp at hok
      have hsplit := List.takeWhile_append_dropWhile (p := blockOk g)
        (l := candCols (width g))
      have hpw := pairwise_lt_candCols (width g)
      rw [← hsplit] at hpw
      obtain ⟨-, -, hcross⟩ := List.pairwise_append.mp hpw
      have hcdrop : IDX_STORE_START + 3 * k ∈ (candCols (width g)).dropWhile (blockOk g) := by
        have := hcmem
        rw [← hsplit, List.mem_append] at this
        exact this.resolve_left hcnot
      exact hcross _ hi _ hcdrop
    · omega
  refine ⟨hmain, ?_⟩
  rw [reshapeFacts]
  have hfilter : (scanBlocks g).filter
      (fun i => (i < IDX_STORE_START + 3 * k : Bool)) = scanBlocks g := by
    apply List.filter_eq_self.mpr
    intro i hi
    simpa using hmain i hi
  rw [hfilter]

theorem C3_stop_marker_witness :
    containsSub STOP_COLUMN_KEYWORD.data
        (headerStr gStop (IDX_STORE_START + 3 * 1)).data = true
    ∧ ((∀ i ∈ scanBlocks gStop, i < IDX_STORE_START + 3 * 1)
        ∧ reshapeFacts gStop
          = ((scanBlocks gStop).filter (fun i => i < IDX_STORE_START + 3 * 1)).flatMap
              (blockFacts gStop)) :=
  ⟨by decide, C3_stop_marker gStop 1 (by decide)⟩

/-- C5 counterexample: the three size labels of the scenario do not all
normalize to one form — `"m size"` keeps its lower-case `m`, which is not in
`SIZE_ORDER`, so its rank (999) differs from the rank of `"M"` (3). -/
theorem C5_normalization_cex :
    normalizeStr "Ｍサイズ" = "M" ∧ normalizeStr " M " = "M"
    ∧ normalizeStr "m size" = "m"
    ∧ ("m" : String) ≠ "M"
    ∧ sizeRank (normalizeStr "Ｍサイズ") = 3
    ∧ sizeRank (normalizeStr "m size") = 999 := by decide

/-- C5 amended: `"Ｍサイズ"` and `" M "` normalize to the same canonical form
`"M"` and receive the identical rank 3; `"m size"` normalizes to `"m"` (the
size token is stripped case-insensitively but the remaining letter keeps its
case), which is absent from the size list and receives the sentinel rank
999. -/
theorem C5_normalization :
    normalizeStr "Ｍサイズ" = normalizeStr " M "
    ∧ sizeRank (normalizeStr "Ｍサイズ") = sizeRank (normalizeStr " M ")
    ∧ normalizeStr "Ｍサイズ" = "M"
    ∧ normalizeStr "m size" = "m"
    ∧ sizeRank (normalizeStr "m size") = 999
    ∧ sizeRank (normalizeStr " M ") = 3 := by decide

theorem lookupRank_not_mem (l : List String) (s : String) (h : s ∉ l) :
    ∀ i0, lookupRank l i0 s = none := by
  induction l with
  | nil => intro _; rfl
  | cons k ks ih =>
    intro i0
    rw [lookupRank,
      if_neg (fun heq => h (by rw [heq]; exact List.mem_cons_self k ks))]
    exact ih (fun hm => h (List.mem_cons_of_mem _ hm)) (i0 + 1)

theorem lookupRank_get (l : List String) :
    l.Nodup → ∀ (j : Nat) (h : j < l.length) (i0 : Nat),
      lookupRank l i0 (l.get ⟨j, h⟩) = some (i0 + j) := by
  induction l with
  | nil =>
    intro _ j h
    exact absurd h (by simp)
  | cons k ks ih =>
    intro hnd j h i0
    cases j with
    | zero =>
      simp [lookupRank, List.get_cons_zero]
    | succ j' =>
      have hj' : j' < ks.length := by simpa using h
      have hget : (k :: ks).get ⟨j' + 1, h⟩ = ks.get ⟨j', hj'⟩ := rfl
      have hne : ks.get ⟨j', hj'⟩ ≠ k := by
        intro heq
        exact (List.nodup_cons.mp hnd).1 (heq ▸ List.get_mem ks j' hj')
      rw [lookupRank, hget, if_neg hne, ih (List.nodup_cons.mp hnd).2 j' hj' (i0 + 1)]
      congr 1
      omega

/-- C6.  Rank total order: every label of `SIZE_ORDER` is ranked by its
0-based position, every label outside the list gets the sentinel 999, the
sentinel exceeds every real position, positions are ordered as listed, and
every unknown label ranks after every known one. -/
theorem C6_rank_order (i j : Nat) (hi : i < SIZE_ORDER.length)
    (hj : j < SIZE_ORDER.length) (hij : i < j) (s : String) (hs : s ∉ SIZE_ORDER) :
    sizeRank (SIZE_ORDER.get ⟨i, hi⟩) = i
    ∧ sizeRank s = 999
    ∧ sizeRank (SIZE_ORDER.get ⟨i, hi⟩) < 999
    ∧ sizeRank (SIZE_ORDER.get ⟨i, hi⟩) < sizeRank (SIZE_ORDER.get ⟨j, hj⟩)
    ∧ sizeRank (SIZE_ORDER.get ⟨i, hi⟩) < sizeRank s := by
  have hnodup : SIZE_ORDER.Nodup := by decide
  have hranki : sizeRank (SIZE_ORDER.get ⟨i, hi⟩) = i := by
    rw [sizeRank, lookupRank_get SIZE_ORDER hnodup i hi 0]
    simp
  have hrankj : sizeRank (SIZE_ORDER.get ⟨j, hj⟩) = j := by
    rw [sizeRank, lookupRank_get SIZE_ORDER hnodup j hj 0]
    simp
  have hranks : sizeRank s = 999 := by
    rw [sizeRank, lookupRank_not_mem SIZE_ORDER s hs 0]
    rfl
  have hlen : SIZE_ORDER.length = 14 := by decide
  refine ⟨hranki, hranks, ?_, ?_, ?_⟩
  · omega
  · omega
  · omega

theorem C6_rank_order_witness :
    sizeRank (SIZE_ORDER.get ⟨0, by decide⟩) = 0
    ∧ sizeRank "ZZZ" = 999
    ∧ sizeRank (SIZE_ORDER.get ⟨0, by decide⟩) < 999
    ∧ sizeRank (SIZE_ORDER.get ⟨0, by decide⟩) < sizeRank (SIZE_ORDER.get ⟨1, by decide⟩)
    ∧ sizeRank (SIZE_ORDER.get ⟨0, by decide⟩) < sizeRank "ZZZ" :=
  C6_rank_order 0 1 (by decide) (by decide) (by decide) "ZZZ" (by decide)

/-- C4 counterexample: a fact with a missing product name (a grouping text
field) is not grouped under an empty-string key — `groupby` drops it, so its
positive quantity is counted in no group of the ByProduct report. -/
theorem C4_missing_fields_cex :
    groupRows1 [factNoProd] = [] ∧ 0 < factNoProd.qty :=
  ⟨by decide, show (0 : ℚ) < 1 by norm_num⟩

/-- C4 amended: the aggregations are total; a missing size normalizes to the
empty string and missing store code/name become empty strings, so those facts
stay grouped; but a fact with a missing product/color (ByProduct) or center
(ByCenter) grouping field is dropped from that grouped report.  When every
grouping field is present, ByProduct and ByCenter account each fact's quantity
exactly once, and ByStore always accounts every fact. -/
theorem C4_missing_fields (facts : List Fact) (sheets : List StoreSheet)
    (h3 : mkOut3 facts = Except.ok sheets) :
    normalizeCell none = ""
    ∧ strCellTrim none = ""
    ∧ groupRows1 facts = groupRows1 (facts.filter keep1)
    ∧ groupRows2 facts = groupRows2 (facts.filter keep2)
    ∧ ((∀ f ∈ facts, keep1 f = true) →
        ((groupRows1 facts).map Out1Row.total).sum = sumQ facts)
    ∧ ((∀ f ∈ facts, keep2 f = true) →
        ((groupRows2 facts).map Out2Row.qty).sum = sumQ facts)
    ∧ ((sheets.map (fun s => sumQ s.rows)).sum = sumQ facts) := by
  have hff1 : (facts.filter keep1).filter keep1 = facts.filter keep1 := by
    rw [List.filter_filter]
    apply List.filter_congr
    intro x _
    rw [Bool.and_self]
  have hff2 : (facts.filter keep2).filter keep2 = facts.filter keep2 := by
    rw [List.filter_filter]
    apply List.filter_congr
    intro x _
    rw [Bool.and_self]
  refine ⟨rfl, rfl, ?_, ?_, ?_, ?_, mkOut3_sum h3⟩
  · simp only [groupRows1]
    rw [hff1]
  · simp only [groupRows2]
    rw [hff2]
  · intro hall
    have hfe : facts.filter keep1 = facts := List.filter_eq_self.mpr hall
    have hmap : (groupRows1 facts).map Out1Row.total
        = (firstKeys ((facts.filter keep1).map key1)).map
            (fun k => sumQ ((facts.filter keep1).filter (fun f => key1 f = k))) := by
      simp only [groupRows1]
      rw [List.map_map]
      rfl
    rw [hmap, qSum_fibers_all key1 (facts.filter keep1), hfe]
  · intro hall
    have hfe : facts.filter keep2 = facts := List.filter_eq_self.mpr hall
    have hmap : (groupRows2 facts).map Out2Row.qty
        = (firstKeys ((facts.filter keep2).map key2)).map
            (fun k => sumQ ((facts.filter keep2).filter (fun f => key2 f = k))) := by
      simp only [groupRows2]
      rw [List.map_map]
      rfl
    rw [hmap, qSum_fibers_all key2 (facts.filter keep2), hfe]

theorem C4_missing_fields_witness :
    ((groupRows1 [factW]).map Out1Row.total).sum = sumQ [factW]
    ∧ (([sheetW].map (fun s => sumQ s.rows)).sum = sumQ [factW]) :=
  ⟨(C4_missing_fields [factW] [sheetW] (by decide)).2.2.2.2.1 (by decide),
   (C4_missing_fields [factW] [sheetW] (by decide)).2.2.2.2.2.2⟩

/-- C10.  Aggregation homomorphism: for facts with all grouping fields
present, the ByProduct total of any product key equals the sum over the
ByCenter rows carrying that product key (one row per center holding it). -/
theorem C10_homomorphism (facts : List Fact)
    (h : ∀ f ∈ facts, keep2 f = true)
    (k : Option Value × Option Value × Option Value × Option Value × String) :
    (((groupRows1 facts).filter (fun r =>
        (r.prodName, r.mkCode, r.colorCode, r.colorName, r.size) = k)).map
      Out1Row.total).sum
    = (((groupRows2 facts).filter (fun r =>
        (r.prodName, r.mkCode, r.colorCode, r.colorName, r.size) = k)).map
      Out2Row.qty).sum := by
  have hk1 : ∀ f ∈ facts, keep1 f = true := by
    intro f hf
    have hf2 := h f hf
    rw [keep2, Bool.and_eq_true] at hf2
    exact hf2.2
  have hfe1 : facts.filter keep1 = facts := List.filter_eq_self.mpr hk1
  have hfe2 : facts.filter keep2 = facts := List.filter_eq_self.mpr h
  have hL : ((groupRows1 facts).filter (fun r =>
        (r.prodName, r.mkCode, r.colorCode, r.colorName, r.size) = k)).map
        Out1Row.total
      = ((firstKeys ((facts.filter keep1).map key1)).filter
          (fun k' => k' = k)).map
          (fun k' => sumQ ((facts.filter keep1).filter (fun f => key1 f = k'))) := by
    simp only [groupRows1]
    rw [List.filter_map, List.map_map]
    rfl
  have hR : ((groupRows2 facts).filter (fun r =>
        (r.prodName, r.mkCode, r.colorCode, r.colorName, r.size) = k)).map
        Out2Row.qty
      = ((firstKeys ((facts.filter keep2).map key2)).filter
          (fun k2 => k2.2 = k)).map
          (fun k2 => sumQ ((facts.filter keep2).filter (fun f => key2 f = k2))) := by
    simp only [groupRows2]
    rw [List.filter_map, List.map_map]
    rfl
  rw [hL, hR, qSum_fibers_filter key1 (facts.filter keep1) (fun k' => k' = k),
    qSum_fibers_filter key2 (facts.filter keep2) (fun k2 => k2.2 = k), hfe1, hfe2]
  rfl

theorem C10_homomorphism_witness :
    (((groupRows1 [factW]).filter (fun r =>
        (r.prodName, r.mkCode, r.colorCode, r.colorName, r.size)
          = (some (vstr "Shirt"), some (vstr "MK1"), some (vstr "C1"),
              some (vstr "Red"), "M"))).map Out1Row.total).sum
    = (((groupRows2 [factW]).filter (fun r =>
        (r.prodName, r.mkCode, r.colorCode, r.colorName, r.size)
          = (some (vstr "Shirt"), some (vstr "MK1"), some (vstr "C1"),
              some (vstr "Red"), "M"))).map Out2Row.qty).sum :=
  C10_homomorphism [factW] (by decide)
    (some (vstr "Shirt"), some (vstr "MK1"), some (vstr "C1"),
      some (vstr "Red"), "M")

/-- C7.  Determinism of the core: the pipeline is a function of its input, so
two runs on the same table agree on every report including row order; and the
sort is stable — in the report-3 sort (on the full 7-column key), any two
rows with equal sort keys keep their input order, witnessed by the strictly
increasing original positions carried by `sortPairs`. -/
theorem C7_determinism :
    (∀ g : RawGrid, pipeline g = pipeline g)
    ∧ (∀ facts : List Fact,
        (sortPairs (fun f => sortKeys3.map (fun kf => tauOf (kf f))) facts).Pairwise
          (fun x y =>
            sortKeys3.map (fun kf => tauOf (kf x.2))
              = sortKeys3.map (fun kf => tauOf (kf y.2)) → x.1 < y.1)) := by
  refine ⟨fun _ => rfl, fun facts => ?_⟩
  have hsorted := List.sorted_insertionSort
    (pairLe (fun f => sortKeys3.map (fun kf => tauOf (kf f)))) facts.enum
  have hperm := List.perm_insertionSort
    (pairLe (fun f => sortKeys3.map (fun kf => tauOf (kf f)))) facts.enum
  have hfstnodup : ((sortPairs (fun f => sortKeys3.map (fun kf => tauOf (kf f)))
      facts).map Prod.fst).Nodup := by
    refine ((hperm.map Prod.fst).nodup_iff).mpr ?_
    rw [List.enum_map_fst]
    exact List.nodup_range _
  have hne := List.pairwise_map.mp hfstnodup
  refine ((hsorted.and hne).imp ?_)
  rintro x y ⟨hle, hxy⟩ hkeq
  have hle' : toLex (sortKeys3.map (fun kf => tauOf (kf x.2)), x.1)
      ≤ toLex (sortKeys3.map (fun kf => tauOf (kf y.2)), y.1) := hle
  rcases (Prod.Lex.le_iff _ _).mp hle' with hlt | ⟨-, hle2⟩
  · dsimp only at hlt
    rw [hkeq] at hlt
    exact absurd hlt (lt_irrefl _)
  · exact lt_of_le_of_ne hle2 hxy

/-- C8 counterexample: a render failure for report 1 is not caught — the
exception escapes `process_single_csv` (no other report of the file is
produced) and, since `main`'s loop has no handler, the whole run ends with the
next file unprocessed. -/
theorem C8_containment_cex :
    processFile (ReadResult.table gW) ⟨false, true, true⟩ = FileOutcome.raised []
    ∧ runBatch [(ReadResult.table gW, ⟨false, true, true⟩),
        (ReadResult.table gW, ⟨true, true, true⟩)]
      = [FileOutcome.raised []] := by decide

/-- C8 amended: read failures and the column-count skip are caught and the
run continues; a non-raising file outcome lets the batch continue with the
next file; only the report-3 failure is contained (reports 1-2 of the file
are already written and the run continues); a render failure for report 1
(resp. 2) escapes with no (resp. only report 1) reports written and aborts
the remainder of the run. -/
theorem C8_containment (g : RawGrid) (ro : RenderOks)
    (rest : List (ReadResult × RenderOks)) :
    processFile ReadResult.readFail ro = FileOutcome.readErrorLogged
    ∧ (width g ≤ 26 →
        processFile (ReadResult.table g) ro = FileOutcome.skippedColumns)
    ∧ (∀ w, processFile (ReadResult.table g) ro = FileOutcome.done w →
        runBatch ((ReadResult.table g, ro) :: rest)
          = FileOutcome.done w :: runBatch rest)
    ∧ (∀ w, processFile (ReadResult.table g) ro = FileOutcome.raised w →
        runBatch ((ReadResult.table g, ro) :: rest) = [FileOutcome.raised w])
    ∧ (∀ outs, pipeline g = PResult.ok outs →
        ro.r1 = true → ro.r2 = true → ro.r3 = false →
        processFile (ReadResult.table g) ro = FileOutcome.done [1, 2])
    ∧ (∀ outs, pipeline g = PResult.ok outs → ro.r1 = false →
        processFile (ReadResult.table g) ro = FileOutcome.raised [])
    ∧ (∀ outs, pipeline g = PResult.ok outs → ro.r1 = true → ro.r2 = false →
        processFile (ReadResult.table g) ro = FileOutcome.raised [1]) := by
  refine ⟨rfl, ?_, ?_, ?_, ?_, ?_, ?_⟩
  · intro hw
    simp [processFile, hw]
  · intro w h
    rw [runBatch, h]
  · intro w h
    rw [runBatch, h]
  · intro outs hok hr1 hr2 hr3
    obtain ⟨hw, hne, h1, h2, h3⟩ := pipeline_ok_elim hok
    have hnempty : (reshapeFacts g).isEmpty = false := by
      simp [List.isEmpty_iff, hne]
    simp [processFile, show ¬ width g ≤ 26 by omega, hnempty, h1, h2, h3,
      hr1, hr2, hr3]
  · intro outs hok hr1
    obtain ⟨hw, hne, h1, _, _⟩ := pipeline_ok_elim hok
    have hnempty : (reshapeFacts g).isEmpty = false := by
      simp [List.isEmpty_iff, hne]
    simp [processFile, show ¬ width g ≤ 26 by omega, hnempty, h1, hr1]
  · intro outs hok hr1 hr2
    obtain ⟨hw, hne, h1, h2, _⟩ := pipeline_ok_elim hok
    have hnempty : (reshapeFacts g).isEmpty = false := by
      simp [List.isEmpty_iff, hne]
    simp [processFile, show ¬ width g ≤ 26 by omega, hnempty, h1, h2, hr1, hr2]

theorem C8_containment_witness :
    processFile (ReadResult.table gW) ⟨true, true, false⟩ = FileOutcome.done [1, 2]
    ∧ runBatch [(ReadResult.table gW, ⟨true, true, false⟩)]
      = [FileOutcome.done [1, 2]] := by
  have h := C8_containment gW ⟨true, true, false⟩ []
  have hdone := h.2.2.2.2.1 outsW (by decide) rfl rfl rfl
  exact ⟨hdone, h.2.2.1 [1, 2] hdone⟩

/-! ## Column-type homogeneity: the sorts never raise -/

theorem colVals_shape (g : RawGrid) (c : Nat) :
    (∀ v ∈ colVals g c, isStrC v = false) ∨ (∀ v ∈ colVals g c, isNumC v = false) := by
  rw [colVals, convertCol]
  by_cases hn : numericCol (colRaw g c)
  · left
    rw [if_pos hn]
    intro v hv
    rw [List.mem_map] at hv
    obtain ⟨oc, _, rfl⟩ := hv
    cases oc with
    | none => rfl
    | some s =>
      cases hp : parseNum s with
      | none => simp [Option.bind, hp, isStrC]
      | some q => simp [Option.bind, hp, isStrC]
  · right
    rw [if_neg hn]
    intro v hv
    rw [List.mem_map] at hv
    obtain ⟨oc, _, rfl⟩ := hv
    cases oc with
    | none => rfl
    | some s => rfl

theorem cellAt_shape (g : RawGrid) (r c : Nat) :
    cellAt g r c = none ∨ cellAt g r c ∈ colVals g c := by
  rw [cellAt]
  cases h : (colVals g c).get? r with
  | none => left; rfl
  | some v =>
    right
    have := List.get?_mem h
    simpa using this

theorem mixedCol_false_left {vals : List (Option Value)}
    (h : ∀ v ∈ vals, isStrC v = false) : mixedCol vals = false := by
  rw [mixedCol]
  have hany : vals.any isStrC = false := by
    rw [List.any_eq_false]
    intro v hv
    simp [h v hv]
  rw [hany, Bool.false_and]

theorem mixedCol_false_right {vals : List (Option Value)}
    (h : ∀ v ∈ vals, isNumC v = false) : mixedCol vals = false := by
  rw [mixedCol]
  have hany : vals.any isNumC = false := by
    rw [List.any_eq_false]
    intro v hv
    simp [h v hv]
  rw [hany, Bool.and_false]

/-- Sort-key values all drawn from one typed column cannot mix strings and
numbers: `read_csv` typing makes every column homogeneous. -/
theorem mixedCol_false_of_column (g : RawGrid) (c : Nat)
    (vals : List (Option Value)) (h : ∀ v ∈ vals, ∃ r, v = cellAt g r c) :
    mixedCol vals = false := by
  rcases colVals_shape g c with hcol | hcol
  · apply mixedCol_false_left
    intro v hv
    obtain ⟨r, rfl⟩ := h v hv
    rcases cellAt_shape g r c with h0 | hm
    · rw [h0]; rfl
    · exact hcol _ hm
  · apply mixedCol_false_right
    intro v hv
    obtain ⟨r, rfl⟩ := h v hv
    rcases cellAt_shape g r c with h0 | hm
    · rw [h0]; rfl
    · exact hcol _ hm

theorem reshape_fields {g : RawGrid} {f : Fact} (h : f ∈ reshapeFacts g) :
    (∃ r, f.clientName = cellAt g r 8) ∧ (∃ r, f.prodName = cellAt g r 15)
    ∧ (∃ r, f.mkCode = cellAt g r 14) ∧ (∃ r, f.colorCode = cellAt g r 21) := by
  obtain ⟨i, _, r0, _, rfl, _⟩ := mem_reshapeFacts h
  exact ⟨⟨r0 + 1, rfl⟩, ⟨r0 + 1, rfl⟩, ⟨r0 + 1, rfl⟩, ⟨r0 + 1, rfl⟩⟩

theorem mem_groupRows1 {facts : List Fact} {r : Out1Row} (h : r ∈ groupRows1 facts) :
    ∃ f ∈ facts, r.prodName = f.prodName ∧ r.mkCode = f.mkCode
      ∧ r.colorCode = f.colorCode := by
  rw [groupRows1, List.mem_map] at h
  obtain ⟨k, hk, rfl⟩ := h
  rw [mem_firstKeys, List.mem_map] at hk
  obtain ⟨f, hf, hkey⟩ := hk
  refine ⟨f, List.mem_of_mem_filter hf, ?_, ?_, ?_⟩ <;> rw [← hkey] <;> rfl

theorem mem_groupRows2 {facts : List Fact} {r : Out2Row} (h : r ∈ groupRows2 facts) :
    ∃ f ∈ facts, r.center = f.clientName ∧ r.prodName = f.prodName
      ∧ r.mkCode = f.mkCode ∧ r.colorCode = f.colorCode := by
  rw [groupRows2, List.mem_map] at h
  obtain ⟨k, hk, rfl⟩ := h
  rw [mem_firstKeys, List.mem_map] at hk
  obtain ⟨f, hf, hkey⟩ := hk
  refine ⟨f, List.mem_of_mem_filter hf, ?_, ?_, ?_, ?_⟩ <;> rw [← hkey] <;> rfl

theorem mkOut1_ok (g : RawGrid) : ∃ o, mkOut1 (reshapeFacts g) = Except.ok o := by
  simp only [mkOut1, sortDF]
  have hcond : (sortKeys1.any fun kf =>
      mixedCol ((groupRows1 (reshapeFacts g)).map kf)) = false := by
    simp only [sortKeys1, List.any_cons, List.any_nil, Bool.or_eq_false_iff]
    refine ⟨?_, ?_, ?_, ?_, trivial⟩
    · apply mixedCol_false_of_column g 15
      intro v hv
      rw [List.mem_map] at hv
      obtain ⟨row, hrow, rfl⟩ := hv
      obtain ⟨f, hf, hp, _, _⟩ := mem_groupRows1 hrow
      obtain ⟨_, ⟨r, hr⟩, _, _⟩ := reshape_fields hf
      exact ⟨r, by rw [hp, hr]⟩
    · apply mixedCol_false_of_column g 14
      intro v hv
      rw [List.mem_map] at hv
      obtain ⟨row, hrow, rfl⟩ := hv
      obtain ⟨f, hf, _, hm, _⟩ := mem_groupRows1 hrow
      obtain ⟨_, _, ⟨r, hr⟩, _⟩ := reshape_fields hf
      exact ⟨r, by rw [hm, hr]⟩
    · apply mixedCol_false_of_column g 21
      intro v hv
      rw [List.mem_map] at hv
      obtain ⟨row, hrow, rfl⟩ := hv
      obtain ⟨f, hf, _, _, hc⟩ := mem_groupRows1 hrow
      obtain ⟨_, _, _, ⟨r, hr⟩⟩ := reshape_fields hf
      exact ⟨r, by rw [hc, hr]⟩
    · apply mixedCol_false_left
      intro v hv
      rw [List.mem_map] at hv
      obtain ⟨row, _, rfl⟩ := hv
      rfl
  rw [if_neg (by simp [hcond])]
  exact ⟨_, rfl⟩

theorem mkOut2_ok (g : RawGrid) : ∃ o, mkOut2 (reshapeFacts g) = Except.ok o := by
  simp only [mkOut2]
  apply exceptMapList_ok_of_all
  intro c _
  have hok : ∃ rows, sortDF sortKeys2 ((groupRows2 (reshapeFacts g)).filter
      (fun r => r.center = c)) = Except.ok rows := by
    simp only [sortDF]
    have hcond : (sortKeys2.any fun kf =>
        mixedCol (((groupRows2 (reshapeFacts g)).filter
          (fun r => r.center = c)).map kf)) = false := by
      simp only [sortKeys2, List.any_cons, List.any_nil, Bool.or_eq_false_iff]
      refine ⟨?_, ?_, ?_, ?_, trivial⟩
      · apply mixedCol_false_of_column g 15
        intro v hv
        rw [List.mem_map] at hv
        obtain ⟨row, hrow, rfl⟩ := hv
        obtain ⟨f, hf, _, hp, _, _⟩ := mem_groupRows2 (List.mem_of_mem_filter hrow)
        obtain ⟨_, ⟨r, hr⟩, _, _⟩ := reshape_fields hf
        exact ⟨r, by rw [hp, hr]⟩
      · apply mixedCol_false_of_column g 14
        intro v hv
        rw [List.mem_map] at hv
        obtain ⟨row, hrow, rfl⟩ := hv
        obtain ⟨f, hf, _, _, hm, _⟩ := mem_groupRows2 (List.mem_of_mem_filter hrow)
        obtain ⟨_, _, ⟨r, hr⟩, _⟩ := reshape_fields hf
        exact ⟨r, by rw [hm, hr]⟩
      · apply mixedCol_false_of_column g 21
        intro v hv
        rw [List.mem_map] at hv
        obtain ⟨row, hrow, rfl⟩ := hv
        obtain ⟨f, hf, _, _, _, hc⟩ := mem_groupRows2 (List.mem_of_mem_filter hrow)
        obtain ⟨_, _, _, ⟨r, hr⟩⟩ := reshape_fields hf
        exact ⟨r, by rw [hc, hr]⟩
      · apply mixedCol_false_left
        intro v hv
        rw [List.mem_map] at hv
        obtain ⟨row, _, rfl⟩ := hv
        rfl
    rw [if_neg (by simp [hcond])]
    exact ⟨_, rfl⟩
  obtain ⟨rows, hrows⟩ := hok
  exact ⟨(c, rows), by rw [hrows]; rfl⟩

theorem mkOut3_ok (g : RawGrid) : ∃ o, mkOut3 (reshapeFacts g) = Except.ok o := by
  rw [mkOut3]
  have hok : ∃ rows, sortDF sortKeys3 (reshapeFacts g) = Except.ok rows := by
    simp only [sortDF]
    have hcond : (sortKeys3.any fun kf =>
        mixedCol ((reshapeFacts g).map kf)) = false := by
      simp only [sortKeys3, List.any_cons, List.any_nil, Bool.or_eq_false_iff]
      refine ⟨?_, ?_, ?_, ?_, ?_, ?_, ?_, trivial⟩
      · apply mixedCol_false_of_column g 8
        intro v hv
        rw [List.mem_map] at hv
        obtain ⟨f, hf, rfl⟩ := hv
        obtain ⟨⟨r, hr⟩, _, _, _⟩ := reshape_fields hf
        exact ⟨r, hr⟩
      · apply mixedCol_false_right
        intro v hv
        rw [List.mem_map] at hv
        obtain ⟨f, _, rfl⟩ := hv
        rfl
      · apply mixedCol_false_right
        intro v hv
        rw [List.mem_map] at hv
        obtain ⟨f, _, rfl⟩ := hv
        rfl
      · apply mixedCol_false_of_column g 15
        intro v hv
        rw [List.mem_map] at hv
        obtain ⟨f, hf, rfl⟩ := hv
        obtain ⟨_, ⟨r, hr⟩, _, _⟩ := reshape_fields hf
        exact ⟨r, hr⟩
      · apply mixedCol_false_of_column g 14
        intro v hv
        rw [List.mem_map] at hv
        obtain ⟨f, hf, rfl⟩ := hv
        obtain ⟨_, _, ⟨r, hr⟩, _⟩ := reshape_fields hf
        exact ⟨r, hr⟩
      · apply mixedCol_false_of_column g 21
        intro v hv
        rw [List.mem_map] at hv
        obtain ⟨f, hf, rfl⟩ := hv
        obtain ⟨_, _, _, ⟨r, hr⟩⟩ := reshape_fields hf
        exact ⟨r, hr⟩
      · apply mixedCol_false_left
        intro v hv
        rw [List.mem_map] at hv
        obtain ⟨f, _, rfl⟩ := hv
        rfl
    rw [if_neg (by simp [hcond])]
    exact ⟨_, rfl⟩
  obtain ⟨rows, hrows⟩ := hok
  exact ⟨_, by rw [hrows]; rfl⟩

/-- C9.  Implicit totality: on every rectangular table with more than 26
columns and at least one data row, whatever the cell contents, the core
pipeline runs to completion — it either reports the no-usable-data skip or
produces all three reports; no sort can raise because `read_csv` typing keeps
every sort-key column homogeneous. -/
theorem C9_totality (g : RawGrid) (hw : 26 < width g) (_hrows : 2 ≤ g.length)
    (_hrect : ∀ row ∈ g, row.length = width g) :
    pipeline g = PResult.noData ∨ ∃ outs, pipeline g = PResult.ok outs := by
  by_cases hni : (reshapeFacts g).isEmpty
  · left
    simp [pipeline, show ¬ width g ≤ 26 by omega, hni]
  · right
    obtain ⟨o1, h1⟩ := mkOut1_ok g
    obtain ⟨o2, h2⟩ := mkOut2_ok g
    obtain ⟨o3, h3⟩ := mkOut3_ok g
    refine ⟨⟨o1, o2, o3⟩, ?_⟩
    simp [pipeline, show ¬ width g ≤ 26 by omega, hni, h1, h2, h3]

theorem C9_totality_witness :
    pipeline gW = PResult.noData ∨ ∃ outs, pipeline gW = PResult.ok outs :=
  C9_totality gW (by decide) (by decide) (by decide)

end Picking
